import Mathlib

/-!
Verification of the libbtc transaction pipeline (republicprotocol/libbtc-go).

Shallow embedding of the funding, signing, local-verification and
broadcast code.  Sources:

* `Tx`, `fund`, `sign`, `verify`           — src/transaction.go
* `sendTransaction`                        — src/account.go (SendTransaction)
* `broadcastLoop` / `pollLoop`             — the broadcast-and-poll loop of the
  context-aware variant of SendTransaction (src/unnamed/part_002, lines
  164-179) whose inner submit serializes the unchanged draft each round
* `backoff`                                — src/client.go (backoff, lines 583-599)

Modelling conventions:

* Byte slices (`[]byte`) are `List UInt8`.  Hex-encoded fields of the
  explorer's `UnspentOutput` JSON object (`ScriptPubKey`,
  `TransactionHash`) are represented by their decoded byte sequences
  (hex decoding is a bijection on valid hex strings); the 32-byte length
  check of `chainhash.NewHash` is kept explicitly.
* `int64` amounts and fees are `Int`.  Bitcoin amounts are bounded far
  below 2^63, so two's-complement wrap-around is not modelled.
* Network results (`Balance`, `GetUnspentOutputs`, `PublishTransaction`)
  are supplied as an environment; the network calls actually issued are
  recorded as an event trace.
* Scripts produced by `txscript.ScriptBuilder` are modelled as the
  sequence of data pushes made on the builder (every method of the
  builder appends; `Script()` serializes that sequence).
* `txscript.RawTxInSignature` and the script engine (`NewEngine` /
  `Execute`) are external collaborators ("sign(data,key) → signature",
  "execute(script, tx, inputIndex, value) → pass/fail" in the spec); they
  are oracles passed in as function arguments.  The only concrete fact
  kept about `NewEngine` is that it rejects an input index outside the
  transaction's input list, which is both its documented behaviour and
  forced (there is no input to execute against).
-/

namespace LibBtc

/-- Byte strings (`[]byte` in the source). -/
abbrev Bytes := List UInt8

/-- wire.OutPoint: reference to a previous transaction output. -/
structure OutPoint where
  hash : Bytes
  index : Nat
deriving Repr, DecidableEq

/-- wire.TxIn.  The signature script is the sequence of data pushes
produced by the script builder (empty for a freshly added input). -/
structure TxIn where
  previousOutPoint : OutPoint
  signatureScript : List Bytes
deriving Repr, DecidableEq

/-- wire.TxOut. -/
structure TxOut where
  value : Int
  pkScript : Bytes
deriving Repr, DecidableEq

/-- wire.MsgTx (version, inputs, outputs; legacy serialization, no witness). -/
structure MsgTx where
  version : Int
  txIn : List TxIn
  txOut : List TxOut
deriving Repr, DecidableEq

/-- wire.NewMsgTx: fresh draft with no inputs or outputs. -/
def newMsgTx (version : Int) : MsgTx := ⟨version, [], []⟩

/-- MsgTx.AddTxIn appends an input. -/
def MsgTx.addTxIn (m : MsgTx) (ti : TxIn) : MsgTx := { m with txIn := m.txIn ++ [ti] }

/-- MsgTx.AddTxOut appends an output. -/
def MsgTx.addTxOut (m : MsgTx) (o : TxOut) : MsgTx := { m with txOut := m.txOut ++ [o] }

/-- client.go UnspentOutput, with the hex fields decoded. -/
structure UnspentOutput where
  transactionHash : Bytes
  transactionOutputNumber : Nat
  scriptPubKey : Bytes
  amount : Int
deriving Repr, DecidableEq

/-- The `tx` struct of src/transaction.go: the draft plus the funding
state (per-input spent values and the accepted locking-script
fingerprint). -/
structure Tx where
  receiveValues : List Int
  scriptPublicKey : Bytes
  msgTx : MsgTx
deriving Repr, DecidableEq

/-- account.newTx: zero-valued funding state around a given draft. -/
def newTx (m : MsgTx) : Tx := ⟨[], [], m⟩

/-- Errors returned by tx.fund (src/transaction.go lines 97-141). -/
inductive FundError where
  | insufficientBalance (address : String) (required current : Int)
  | mismatchedScriptPublicKeys
  | invalidHashLength
  | payToAddrScriptFailed
deriving Repr, DecidableEq

/-- Network calls issued by the pipeline, in order. -/
inductive NetEvent where
  | balanceQuery (address : String)
  | listUnspent (address : String)
  | publish
deriving Repr, DecidableEq

/-- wire.NewTxIn(wire.NewOutPoint(hash, n), []byte{}, [][]byte{}) for an
unspent output: the input the funding loop appends. -/
def mkTxIn (u : UnspentOutput) : TxIn :=
  ⟨⟨u.transactionHash, u.transactionOutputNumber⟩, []⟩

/-- Running total of output values (src/transaction.go lines 91-94). -/
def sumOutputValues : List TxOut → Int
  | [] => 0
  | o :: rest => o.value + sumOutputValues rest

/-- Sum of the amounts of a list of unspent outputs. -/
def sumAmounts : List UnspentOutput → Int
  | [] => 0
  | u :: rest => u.amount + sumAmounts rest

/-- The selection loop of tx.fund (src/transaction.go lines 103-129).

For each listed output: adopt its locking script as the pass's
fingerprint when the fingerprint is still unset (`bytes.Compare(tx.
scriptPublicKey, []byte{}) == 0`), otherwise skip the output when its
script differs from the fingerprint (`continue`); then append the
output's amount to `receiveValues`; break when the needed `value` is
already covered; otherwise add the input (after the 32-byte hash check
of `chainhash.NewHash`) and reduce `value` by the output's amount.

The two branches that fall through the script check (fingerprint unset /
fingerprint matching) are merged into one guard, and the
adopt-the-fingerprint assignment is written as a conditional field value;
the body is otherwise the source's lines 115-128 verbatim.  Besides the
outcome, the remaining `value` and the mutated `tx`, the trace of
outputs for which `AddTxIn` ran is returned. -/
def fundLoop (value : Int) (t : Tx) (us : List UnspentOutput) :
    Option FundError × Int × Tx × List UnspentOutput :=
  match us with
  | [] => (none, value, t, [])
  | j :: rest =>
    if t.scriptPublicKey ≠ [] ∧ t.scriptPublicKey ≠ j.scriptPubKey then
      fundLoop value t rest
    else
      let t2 : Tx := { t with
        scriptPublicKey :=
          if t.scriptPublicKey = [] then j.scriptPubKey else t.scriptPublicKey,
        receiveValues := t.receiveValues ++ [j.amount] }
      if value ≤ 0 then (none, value, t2, [])
      else if j.transactionHash.length ≠ 32 then (some FundError.invalidHashLength, value, t2, [])
      else
        let t3 : Tx := { t2 with msgTx := t2.msgTx.addTxIn (mkTxIn j) }
        match fundLoop (value - j.amount) t3 rest with
        | (e, v, t', sel) => (e, v, t', j :: sel)

/-- Environment of one tx.fund call: the funding address (already
resolved; the `addr == nil` branch of lines 83-89 substitutes the
account's own address before this point), represented by its encoded
string together with the result of `txscript.PayToAddrScript(addr)`
(`none` when that call fails), and the network answers for `Balance` and
`GetUnspentOutputs` at that address. -/
structure FundEnv where
  encodeAddress : String
  payToAddrScript : Option Bytes
  balance : Int
  utxos : List UnspentOutput
deriving Repr

/-- tx.fund (src/transaction.go lines 82-144): required value = outputs
plus fee; insufficient-balance pre-check before the listing; the
selection loop; remaining value > 0 is the mismatched-script failure;
remaining value < 0 appends one change output paying
`PayToAddrScript(addr)`.  Returns outcome, mutated state, selection
trace, and issued network calls. -/
def fund (t : Tx) (env : FundEnv) (fee : Int) :
    Option FundError × Tx × List UnspentOutput × List NetEvent :=
  let value := sumOutputValues t.msgTx.txOut + fee
  if value > env.balance then
    (some (FundError.insufficientBalance env.encodeAddress value env.balance), t, [],
      [NetEvent.balanceQuery env.encodeAddress])
  else
    let evs := [NetEvent.balanceQuery env.encodeAddress, NetEvent.listUnspent env.encodeAddress]
    match fundLoop value t env.utxos with
    | (some e, _, t', sel) => (some e, t', sel, evs)
    | (none, v, t', sel) =>
      if v > 0 then (some FundError.mismatchedScriptPublicKeys, t', sel, evs)
      else if v < 0 then
        match env.payToAddrScript with
        | none => (some FundError.payToAddrScriptFailed, t', sel, evs)
        | some script => (none, { t' with msgTx := t'.msgTx.addTxOut ⟨-v, script⟩ }, sel, evs)
      else (none, t', sel, evs)

/-- txscript.SigHashAll is the only hash type the code uses; the enum
records that it is what `sign` passes to `RawTxInSignature`. -/
inductive SigHashType where
  | sigHashAll
deriving Repr, DecidableEq

/-- The unlocking script assembled by tx.sign (lines 40-48): push the
signature, push the serialized public key, let the caller-supplied
callback push its extra data, and push the contract (redeem script)
last when spending a contract. -/
def buildSigScript (sig pubKey : Bytes) (extra : Option (List Bytes))
    (contract : Option Bytes) : List Bytes :=
  [sig, pubKey] ++ (match extra with | none => [] | some ps => ps)
    ++ (match contract with | none => [] | some c => [c])

/-- Replace the signature script of input `i` (the `txin.SignatureScript
= sigScript` assignment; inputs are pointers, so the draft is mutated in
place). -/
def setSigScript (m : MsgTx) (i : Nat) (s : List Bytes) : MsgTx :=
  match m.txIn[i]? with
  | none => m
  | some ti => { m with txIn := m.txIn.set i { ti with signatureScript := s } }

/-- The `for i, txin := range tx.msgTx.TxIn` loop of tx.sign: at index
`i` with `fuel` inputs left, sign the draft as currently mutated
(signatures for later inputs see the unlocking scripts already installed
on earlier ones, exactly as the in-place Go loop does) and install the
assembled unlocking script. -/
def signGo (rawSig : MsgTx → Nat → Bytes → SigHashType → Bytes) (subScript pubKey : Bytes)
    (extra : Option (List Bytes)) (contract : Option Bytes) (i : Nat) (fuel : Nat)
    (m : MsgTx) : MsgTx :=
  match fuel with
  | 0 => m
  | k + 1 =>
    let sig := rawSig m i subScript SigHashType.sigHashAll
    let m' := setSigScript m i (buildSigScript sig pubKey extra contract)
    signGo rawSig subScript pubKey extra contract (i + 1) k m'

/-- tx.sign (src/transaction.go lines 28-56).  `rawSig` is
`txscript.RawTxInSignature` partially applied to the account's private
key; `pubKey` is the account's serialized public key; `extra` is the
sequence of data pushes made by the caller-supplied callback `f` (the
builder's public methods only append); `contract` is the redeem script
for contract spends.  The sub-script signed is the contract when one is
supplied, else the recorded locking script. -/
def sign (t : Tx) (rawSig : MsgTx → Nat → Bytes → SigHashType → Bytes) (pubKey : Bytes)
    (extra : Option (List Bytes)) (contract : Option Bytes) : Tx :=
  let subScript := match contract with | none => t.scriptPublicKey | some c => c
  { t with
    msgTx := signGo rawSig subScript pubKey extra contract 0 t.msgTx.txIn.length t.msgTx }

/-- Errors of tx.verify: the engine cannot be built for an input index
outside the draft's input list (txscript.NewEngine's documented "index
out of range" rejection), or script execution failed. -/
inductive VerifyError where
  | engineIndexOutOfRange (idx : Nat)
  | scriptFailed (idx : Nat)
deriving Repr, DecidableEq

/-- The `for i, receiveValue := range tx.receiveValues` loop of
tx.verify: build an engine for input `i` against the recorded locking
script and spent value, and execute it.  `exec` is the black-box script
interpreter ("execute(script, tx, inputIndex, value) → pass/fail"). -/
def verifyLoop (exec : Bytes → MsgTx → Nat → Int → Bool) (t : Tx) :
    Nat → List Int → Option VerifyError
  | _, [] => none
  | i, rv :: rest =>
    if t.msgTx.txIn.length ≤ i then some (VerifyError.engineIndexOutOfRange i)
    else if exec t.scriptPublicKey t.msgTx i rv then verifyLoop exec t (i + 1) rest
    else some (VerifyError.scriptFailed i)

/-- tx.verify (src/transaction.go lines 58-71). -/
def verify (exec : Bytes → MsgTx → Nat → Int → Bool) (t : Tx) : Option VerifyError :=
  verifyLoop exec t 0 t.receiveValues

/-- Errors surfaced by SendTransaction. -/
inductive SendError where
  | preConditionFailed
  | postConditionFailed
  | addressFailure
  | fundFailed (e : FundError)
  | verifyFailed (e : VerifyError)
  | submitFailed (msg : String)
deriving Repr, DecidableEq

/-- Environment of account.SendTransaction: address derivations
(`account.Address()` respectively `btcutil.NewAddressScriptHash`, `none`
on failure), `txscript.PayToAddrScript`, the network answers keyed by
encoded address, the account's serialized public key, the signature and
script-execution oracles, the wire serializer, and
`PublishTransaction`'s outcome. -/
structure SendEnv where
  accountAddress : Option String
  scriptHashAddress : Bytes → Option String
  payToAddrScript : String → Option Bytes
  balance : String → Int
  utxos : String → List UnspentOutput
  pubKey : Bytes
  rawSig : MsgTx → Nat → Bytes → SigHashType → Bytes
  exec : Bytes → MsgTx → Nat → Int → Bool
  serialize : MsgTx → Bytes
  publish : Bytes → Option String

/-- SendTransaction after the precondition gate (src/account.go lines
101-131): resolve the funding address (the account's own for plain
spends, the P2SH address of the contract otherwise), then fund, sign,
verify, submit, and finally evaluate the postcondition once.  `sign`
cannot fail in the model (its oracles are total), so no sign error
variant appears. -/
def sendAfterPre (env : SendEnv) (contract : Option Bytes) (fee : Int)
    (f : Option (List Bytes)) (postCon : Option (MsgTx → Bool × MsgTx)) (t : Tx) :
    Option SendError × Tx × List NetEvent :=
  let addrRes := match contract with
    | none => env.accountAddress
    | some c => env.scriptHashAddress c
  match addrRes with
  | none => (some SendError.addressFailure, t, [])
  | some addr =>
    let fenv : FundEnv := ⟨addr, env.payToAddrScript addr, env.balance addr, env.utxos addr⟩
    match fund t fenv fee with
    | (some e, t', _, evs) => (some (SendError.fundFailed e), t', evs)
    | (none, t', _, evs) =>
      let ts := sign t' env.rawSig env.pubKey f contract
      match verify env.exec ts with
      | some ve => (some (SendError.verifyFailed ve), ts, evs)
      | none =>
        let evs := evs ++ [NetEvent.publish]
        match env.publish (env.serialize ts.msgTx) with
        | some msg => (some (SendError.submitFailed msg), ts, evs)
        | none =>
          match postCon with
          | none => (none, ts, evs)
          | some q =>
            match q ts.msgTx with
            | (false, m') => (some SendError.postConditionFailed, { ts with msgTx := m' }, evs)
            | (true, m') => (none, { ts with msgTx := m' }, evs)

/-- account.SendTransaction (src/account.go lines 80-132): build a fresh
version-2 draft, evaluate the precondition on it (the callback receives
the mutable draft, so it may mutate it; a `false` answer aborts with
ErrPreConditionCheckFailed), then run the rest of the pipeline. -/
def sendTransaction (env : SendEnv) (contract : Option Bytes) (fee : Int)
    (f : Option (List Bytes)) (preCon postCon : Option (MsgTx → Bool × MsgTx)) :
    Option SendError × Tx × List NetEvent :=
  let t := newTx (newMsgTx 2)
  match preCon with
  | none => sendAfterPre env contract fee f postCon t
  | some p =>
    match p t.msgTx with
    | (false, m') => (some SendError.preConditionFailed, { t with msgTx := m' }, [])
    | (true, m') => sendAfterPre env contract fee f postCon { t with msgTx := m' }

/-- Events of the broadcast-and-poll phase: a broadcast of the given
serialized bytes, a postcondition poll (satisfied or not), and the
fixed-length sleep between poll attempts. -/
inductive PollEv where
  | broadcast (bytes : Bytes)
  | pollSuccess
  | pollFail
  | sleepSeconds (n : Nat)
deriving Repr, DecidableEq

/-- Outcome of the broadcast-and-poll phase (src/unnamed/part_002):
success, the error returned when the context is done, or a publish
failure. -/
inductive SubmitOutcome where
  | ok
  | postConditionFailed
  | publishError (msg : String)
deriving Repr, DecidableEq

/-- The inner `for i := 0; i < 60; i++` poll loop (src/unnamed/part_002
lines 172-177): check the postcondition; on success return, otherwise
sleep 5 seconds and try again until the budget runs out.  The draft the
predicate receives never changes, but the chain state it inspects does,
so the predicate is modelled as a function of the number of invocations
made so far; the updated counter is returned along with the events. -/
def pollLoop (post : Nat → Bool) (t : Nat) : Nat → Bool × Nat × List PollEv
  | 0 => (false, t, [])
  | budget + 1 =>
    if post t then (true, t + 1, [PollEv.pollSuccess])
    else
      match pollLoop post (t + 1) budget with
      | (ok, t', evs) => (ok, t', PollEv.pollFail :: PollEv.sleepSeconds 5 :: evs)

/-- The outer broadcast loop of the context-aware SendTransaction
(src/unnamed/part_002 lines 164-179): before each round check
`ctx.Done()` (returning ErrPostConditionCheckFailed once it has fired),
then submit — `tx.submit()` serializes the unchanged draft, so every
round publishes the same `stxBytes` — and return any publish error; a
nil postcondition means success immediately after the broadcast is
accepted (the first poll iteration returns before any sleep); otherwise
poll up to 60 times and, when the budget is exhausted, loop back and
re-broadcast.  `done r` is whether the context is done when round `r`
begins and `publish r` is the broadcast outcome of round `r`; the
unbounded `for` loop is modelled with fuel (`none` = fuel ran out). -/
def broadcastLoop (stxBytes : Bytes) (done : Nat → Bool) (publish : Nat → Option String)
    (postCond : Option (Nat → Bool)) (fuel r t : Nat) :
    Option (SubmitOutcome × List PollEv) :=
  match fuel with
  | 0 => none
  | fuel + 1 =>
    if done r then some (SubmitOutcome.postConditionFailed, [])
    else
      match publish r with
      | some msg => some (SubmitOutcome.publishError msg, [PollEv.broadcast stxBytes])
      | none =>
        match postCond with
        | none => some (SubmitOutcome.ok, [PollEv.broadcast stxBytes])
        | some post =>
          match pollLoop post t 60 with
          | (true, _, evs) => some (SubmitOutcome.ok, PollEv.broadcast stxBytes :: evs)
          | (false, t', evs) =>
            match broadcastLoop stxBytes done publish (some post) fuel (r + 1) t' with
            | none => none
            | some (oc, evs') =>
              some (oc, PollEv.broadcast stxBytes :: (evs ++ evs'))

/-- `k` failed poll attempts, each followed by the fixed 5-second
sleep. -/
def pollFailBlock : Nat → List PollEv
  | 0 => []
  | k + 1 => PollEv.pollFail :: PollEv.sleepSeconds 5 :: pollFailBlock k

/-- Events of the backoff wrapper: the `ctx.Done()` check made before an
attempt, the attempt itself, and the sleep (in milliseconds) after a
failed attempt. -/
inductive BackoffEv where
  | ctxCheck
  | call
  | sleepMilliseconds (d : Nat)
deriving Repr, DecidableEq

/-- Result of the backoff wrapper. -/
inductive BackoffOutcome where
  | ok
  | timedOut
deriving Repr, DecidableEq

/-- client.go backoff (lines 583-599): check `ctx.Done()` before each
attempt (returning ErrTimedOut once it has fired), run the wrapped call,
return its success immediately, and on any error sleep for the current
duration and retry with the duration multiplied by 1.6.  `done n` is
whether the context is done when attempt `n` starts and `f n` that
attempt's outcome.  The source computes the next duration as
`time.Duration(float64(duration) * 1.6)` — an exact product truncated to
integer for every attainable duration — modelled as `d * 8 / 5` in
natural numbers; the unbounded `for` loop is modelled with fuel. -/
def backoff (done : Nat → Bool) (f : Nat → Option String) (fuel n d : Nat) :
    Option (BackoffOutcome × List BackoffEv) :=
  match fuel with
  | 0 => none
  | fuel + 1 =>
    if done n then some (BackoffOutcome.timedOut, [BackoffEv.ctxCheck])
    else
      match f n with
      | none => some (BackoffOutcome.ok, [BackoffEv.ctxCheck, BackoffEv.call])
      | some _ =>
        match backoff done f fuel (n + 1) (d * 8 / 5) with
        | none => none
        | some (oc, evs) =>
          some (oc, BackoffEv.ctxCheck :: BackoffEv.call :: BackoffEv.sleepMilliseconds d :: evs)

/-- Entry point of the backoff wrapper: duration starts at 1000. -/
def backoffRun (done : Nat → Bool) (f : Nat → Option String) (fuel : Nat) :
    Option (BackoffOutcome × List BackoffEv) :=
  backoff done f fuel 0 1000

/-- The sleep durations of a backoff trace, in order. -/
def sleepsOf : List BackoffEv → List Nat
  | [] => []
  | BackoffEv.sleepMilliseconds d :: rest => d :: sleepsOf rest
  | _ :: rest => sleepsOf rest

/-- The sequence of sleep durations prescribed by 1.6-fold growth from
`d`: `d, d*8/5, (d*8/5)*8/5, …` (`k` terms). -/
def durSeq (d : Nat) : Nat → List Nat
  | 0 => []
  | k + 1 => d :: durSeq (d * 8 / 5) k

/-- Homogeneity of one funding pass's selection: every selected output's
locking script equals the first selected output's. -/
def selHomogeneous (sel : List UnspentOutput) : Prop :=
  ∀ u ∈ sel, ∀ u0 ∈ sel.head?, u.scriptPubKey = u0.scriptPubKey

instance (sel : List UnspentOutput) : Decidable (selHomogeneous sel) := by
  unfold selHomogeneous; infer_instance

/-- A 32-byte all-zero transaction hash for concrete scenarios. -/
def h32 : Bytes := List.replicate 32 0

/-- Concrete scenario exercising the receiveValues/TxIn off-by-one: a
draft owing 6 (one output of 6, fee 0) funded from two unspent outputs
of 6 and 4 with identical locking scripts. -/
def cx4T0 : Tx := ⟨[], [], ⟨2, [], [⟨6, [0x51]⟩]⟩⟩

/-- Environment of the off-by-one scenario. -/
def cx4Env : FundEnv := ⟨"X", some [0x76], 10, [⟨h32, 0, [0xab], 6⟩, ⟨h32, 1, [0xab], 4⟩]⟩

/-- Concrete scenario exercising the empty-fingerprint edge: a draft
owing 3 funded from an unspent output with an empty locking script
followed by one with a different, nonempty locking script. -/
def cx3T0 : Tx := ⟨[], [], ⟨2, [], [⟨3, [0x51]⟩]⟩⟩

/-- Environment of the empty-fingerprint scenario. -/
def cx3Env : FundEnv := ⟨"X", some [0x76], 10, [⟨h32, 0, [], 1⟩, ⟨h32, 1, [0xab], 5⟩]⟩

/-- Concrete scenario for exact balancing with change: a 50000 output
with fee 10000 funded from a single 70000 unspent output. -/
def c1T0 : Tx := ⟨[], [], ⟨2, [], [⟨50000, [0x51]⟩]⟩⟩

/-- Environment of the change scenario. -/
def c1Env : FundEnv := ⟨"X", some [0x76], 70000, [⟨h32, 0, [0xab], 70000⟩]⟩

/-- The unspent output of the change scenario. -/
def c1U : UnspentOutput := ⟨h32, 0, [0xab], 70000⟩

/-- The funded state of the change scenario: one input spending `c1U`
and a 10000 change output. -/
def c1Funded : Tx :=
  ⟨[70000], [0xab], ⟨2, [⟨⟨h32, 0⟩, []⟩], [⟨50000, [0x51]⟩, ⟨10000, [0x76]⟩]⟩⟩

/-- A SendEnv whose network answers are all trivial, for closed
instances. -/
def envNull : SendEnv :=
  ⟨none, fun _ => none, fun _ => none, fun _ => 0, fun _ => [], [],
    fun _ _ _ _ => [], fun _ _ _ _ => true, fun _ => [], fun _ => none⟩

/-! Loop invariants of the selection loop. -/

/-- Frame and accounting invariant of the selection loop: the version is
untouched, outputs are untouched, the inputs grow exactly by one input
per selected output (in order), the remaining value drops by the sum of
the selected amounts, and receiveValues only grows. -/
theorem fundLoop_spec (us : List UnspentOutput) :
    ∀ (value : Int) (t : Tx) e v t' sel, fundLoop value t us = (e, v, t', sel) →
      t'.msgTx.version = t.msgTx.version ∧
      t'.msgTx.txOut = t.msgTx.txOut ∧
      t'.msgTx.txIn = t.msgTx.txIn ++ sel.map mkTxIn ∧
      v = value - sumAmounts sel ∧
      ∃ sfx, t'.receiveValues = t.receiveValues ++ sfx := by
  induction us with
  | nil =>
    intro value t e v t' sel h
    simp only [fundLoop, Prod.mk.injEq] at h
    obtain ⟨he, hv, ht, hsel⟩ := h
    subst hv; subst ht; subst hsel
    exact ⟨rfl, rfl, by simp, by simp [sumAmounts], ⟨[], by simp⟩⟩
  | cons j rest ih =>
    intro value t e v t' sel h
    simp only [fundLoop] at h
    split at h
    · exact ih value t e v t' sel h
    · split at h
      · -- break: value already covered
        simp only [Prod.mk.injEq] at h
        obtain ⟨he, hv, ht, hsel⟩ := h
        subst hv; subst ht; subst hsel
        exact ⟨rfl, rfl, by simp, by simp [sumAmounts], ⟨[j.amount], rfl⟩⟩
      · split at h
        · -- invalid hash length
          simp only [Prod.mk.injEq] at h
          obtain ⟨he, hv, ht, hsel⟩ := h
          subst hv; subst ht; subst hsel
          exact ⟨rfl, rfl, by simp, by simp [sumAmounts], ⟨[j.amount], rfl⟩⟩
        · -- select the output and continue
          rcases hrec : fundLoop (value - j.amount)
              { t with
                scriptPublicKey :=
                  if t.scriptPublicKey = [] then j.scriptPubKey else t.scriptPublicKey,
                receiveValues := t.receiveValues ++ [j.amount],
                msgTx := t.msgTx.addTxIn (mkTxIn j) } rest with ⟨e1, v1, t1, sel1⟩
          rw [hrec] at h
          simp only [Prod.mk.injEq] at h
          obtain ⟨he, hv, ht, hsel⟩ := h
          subst hv; subst ht; subst hsel
          obtain ⟨h1, h2, h3, h4, h5⟩ := ih _ _ _ _ _ _ hrec
          refine ⟨h1, by simpa [MsgTx.addTxIn] using h2, ?_, ?_, ?_⟩
          · simp only [h3, MsgTx.addTxIn, List.map_cons, List.append_assoc,
              List.singleton_append]
          · simp only [sumAmounts] at h4 ⊢
            omega
          · obtain ⟨sfx, hs⟩ := h5
            exact ⟨j.amount :: sfx, by simpa using hs⟩

/-- Once the pass's fingerprint is set (nonempty), the selection loop
never changes it and only selects outputs whose locking script equals
it. -/
theorem fundLoop_fingerprint (us : List UnspentOutput) :
    ∀ (value : Int) (t : Tx) e v t' sel, t.scriptPublicKey ≠ [] →
      fundLoop value t us = (e, v, t', sel) →
      t'.scriptPublicKey = t.scriptPublicKey ∧
      ∀ u ∈ sel, u.scriptPubKey = t.scriptPublicKey := by
  induction us with
  | nil =>
    intro value t e v t' sel hfp h
    simp only [fundLoop, Prod.mk.injEq] at h
    obtain ⟨he, hv, ht, hsel⟩ := h
    subst hv; subst ht; subst hsel
    exact ⟨rfl, by simp⟩
  | cons j rest ih =>
    intro value t e v t' sel hfp h
    simp only [fundLoop] at h
    split at h
    · exact ih value t e v t' sel hfp h
    · rename_i hguard
      have hjs : t.scriptPublicKey = j.scriptPubKey := by
        by_contra hne
        exact hguard ⟨hfp, hne⟩
      split at h
      · simp only [Prod.mk.injEq] at h
        obtain ⟨he, hv, ht, hsel⟩ := h
        subst hv; subst ht; subst hsel
        exact ⟨rfl, by simp⟩
      · split at h
        · simp only [Prod.mk.injEq] at h
          obtain ⟨he, hv, ht, hsel⟩ := h
          subst hv; subst ht; subst hsel
          exact ⟨rfl, by simp⟩
        · rcases hrec : fundLoop (value - j.amount)
              { receiveValues := t.receiveValues ++ [j.amount],
                scriptPublicKey := t.scriptPublicKey,
                msgTx := t.msgTx.addTxIn (mkTxIn j) } rest with ⟨e1, v1, t1, sel1⟩
          rw [hrec] at h
          simp only [Prod.mk.injEq] at h
          obtain ⟨he, hv, ht, hsel⟩ := h
          subst hv; subst ht; subst hsel
          obtain ⟨hA, hB⟩ := ih (value - j.amount)
            { receiveValues := t.receiveValues ++ [j.amount],
              scriptPublicKey := t.scriptPublicKey,
              msgTx := t.msgTx.addTxIn (mkTxIn j) } e1 v1 t1 sel1 hfp hrec
          refine ⟨hA, ?_⟩
          intro u hu
          rcases List.mem_cons.mp hu with rfl | hu
          · exact hjs.symm
          · exact hB u hu

/-- A pass started with an unset fingerprint selects outputs of a single
locking script, provided every listed output's locking script is
nonempty (an empty script is indistinguishable from the unset
fingerprint and would let a later different script be adopted). -/
theorem fundLoop_homogeneous (us : List UnspentOutput) (value : Int) (t : Tx) (e : Option FundError)
    (v : Int) (t' : Tx) (sel : List UnspentOutput)
    (hfp : t.scriptPublicKey = []) (hne : ∀ u ∈ us, u.scriptPubKey ≠ [])
    (h : fundLoop value t us = (e, v, t', sel)) : selHomogeneous sel := by
  cases us with
  | nil =>
    simp only [fundLoop, Prod.mk.injEq] at h
    obtain ⟨-, -, -, hsel⟩ := h
    subst hsel
    intro u hu
    simp at hu
  | cons j rest =>
    simp only [fundLoop] at h
    rw [if_neg (by simp [hfp])] at h
    rw [if_pos hfp] at h
    split at h
    · simp only [Prod.mk.injEq] at h
      obtain ⟨-, -, -, hsel⟩ := h
      subst hsel
      intro u hu
      simp at hu
    · split at h
      · simp only [Prod.mk.injEq] at h
        obtain ⟨-, -, -, hsel⟩ := h
        subst hsel
        intro u hu
        simp at hu
      · rcases hrec : fundLoop (value - j.amount)
            { receiveValues := t.receiveValues ++ [j.amount],
              scriptPublicKey := j.scriptPubKey,
              msgTx := t.msgTx.addTxIn (mkTxIn j) } rest with ⟨e1, v1, t1, sel1⟩
        rw [hrec] at h
        simp only [Prod.mk.injEq] at h
        obtain ⟨-, -, -, hsel⟩ := h
        subst hsel
        have hj : j.scriptPubKey ≠ [] := hne j (by simp)
        obtain ⟨-, hB⟩ := fundLoop_fingerprint rest _ _ _ _ _ _ hj hrec
        intro u hu u0 hu0
        simp only [List.head?_cons, Option.mem_def, Option.some.injEq] at hu0
        subst hu0
        rcases List.mem_cons.mp hu with rfl | hu
        · rfl
        · exact hB u hu

/-- Output values sum over an append. -/
theorem sumOutputValues_append (xs ys : List TxOut) :
    sumOutputValues (xs ++ ys) = sumOutputValues xs + sumOutputValues ys := by
  induction xs with
  | nil => simp [sumOutputValues]
  | cons o xs ih => simp [sumOutputValues, ih, add_assoc]

/-! The claims. -/

/-- C10: fund mutates only the input list (by appending one input per
selected output), the output list (by appending at most one change
output, so every pre-existing output keeps its value, script and
position), the recorded receive values (by appending) and the script
fingerprint; the version is untouched.  Holds on every path, error exits
included. -/
theorem fund_frame_c10 (t : Tx) (env : FundEnv) (fee : Int) (res : Option FundError)
    (t' : Tx) (sel : List UnspentOutput) (evs : List NetEvent)
    (h : fund t env fee = (res, t', sel, evs)) :
    t'.msgTx.version = t.msgTx.version ∧
    t'.msgTx.txIn = t.msgTx.txIn ++ sel.map mkTxIn ∧
    (t'.msgTx.txOut = t.msgTx.txOut ∨ ∃ c, t'.msgTx.txOut = t.msgTx.txOut ++ [c]) ∧
    (∃ sfx, t'.receiveValues = t.receiveValues ++ sfx) := by
  simp only [fund] at h
  split at h
  · simp only [Prod.mk.injEq] at h
    obtain ⟨-, ht, hsel, -⟩ := h
    subst ht; subst hsel
    exact ⟨rfl, by simp, Or.inl rfl, ⟨[], by simp⟩⟩
  · rcases hl : fundLoop (sumOutputValues t.msgTx.txOut + fee) t env.utxos
      with ⟨e0, v0, t0, sel0⟩
    obtain ⟨h1, h2, h3, h4, h5⟩ := fundLoop_spec env.utxos _ _ _ _ _ _ hl
    rw [hl] at h
    cases e0 with
    | some e =>
      simp only [Prod.mk.injEq] at h
      obtain ⟨-, ht, hsel, -⟩ := h
      subst ht; subst hsel
      exact ⟨h1, h3, Or.inl h2, h5⟩
    | none =>
      simp only at h
      split at h
      · simp only [Prod.mk.injEq] at h
        obtain ⟨-, ht, hsel, -⟩ := h
        subst ht; subst hsel
        exact ⟨h1, h3, Or.inl h2, h5⟩
      · split at h
        · split at h
          · simp only [Prod.mk.injEq] at h
            obtain ⟨-, ht, hsel, -⟩ := h
            subst ht; subst hsel
            exact ⟨h1, h3, Or.inl h2, h5⟩
          · rename_i script hscript
            simp only [Prod.mk.injEq] at h
            obtain ⟨-, ht, hsel, -⟩ := h
            subst ht; subst hsel
            refine ⟨h1, h3, Or.inr ⟨⟨-v0, script⟩, ?_⟩, h5⟩
            simp [MsgTx.addTxOut, h2]
        · simp only [Prod.mk.injEq] at h
          obtain ⟨-, ht, hsel, -⟩ := h
          subst ht; subst hsel
          exact ⟨h1, h3, Or.inl h2, h5⟩

/-- C10 witness: the change scenario, where fund appends one input, one
change output and one receive value. -/
theorem fund_frame_c10_witness :
    c1Funded.msgTx.version = c1T0.msgTx.version ∧
    c1Funded.msgTx.txIn = c1T0.msgTx.txIn ++ [c1U].map mkTxIn ∧
    (c1Funded.msgTx.txOut = c1T0.msgTx.txOut ∨
      ∃ c, c1Funded.msgTx.txOut = c1T0.msgTx.txOut ++ [c]) ∧
    (∃ sfx, c1Funded.receiveValues = c1T0.receiveValues ++ sfx) :=
  fund_frame_c10 c1T0 c1Env 10000 none c1Funded [c1U]
    [NetEvent.balanceQuery "X", NetEvent.listUnspent "X"] (by decide)

/-- C7: when the required amount (output values plus fee) exceeds the
funding address's balance, fund fails immediately with the
insufficient-balance error carrying the address, the required and the
current amount, leaves the draft untouched (no input added), selects no
output, issues only the balance query — and never consults the unspent
listing: the result is the same for every listing the network could
return. -/
theorem fund_insufficient_c7 (t : Tx) (env : FundEnv) (fee : Int)
    (h : sumOutputValues t.msgTx.txOut + fee > env.balance) :
    ∀ utxosAlt : List UnspentOutput,
      fund t { env with utxos := utxosAlt } fee
        = (some (FundError.insufficientBalance env.encodeAddress
            (sumOutputValues t.msgTx.txOut + fee) env.balance), t, [],
            [NetEvent.balanceQuery env.encodeAddress]) := by
  intro utxosAlt
  simp [fund, h]

/-- C7 witness: a draft owing 5 against balance 0, with an arbitrary
nonempty listing that is never reached. -/
theorem fund_insufficient_c7_witness :
    fund (newTx (newMsgTx 2)) ⟨"Y", none, 0, [c1U]⟩ 5
      = (some (FundError.insufficientBalance "Y" 5 0), newTx (newMsgTx 2), [],
          [NetEvent.balanceQuery "Y"]) :=
  fund_insufficient_c7 (newTx (newMsgTx 2)) ⟨"Y", none, 0, []⟩ 5 (by decide) [c1U]

/-- C1: on every successful funding pass the sum of the amounts of the
selected inputs equals the sum of all output values of the funded draft
plus the fee exactly; a strictly positive remainder after the selection
loop yields the mismatched-script failure, and a strictly negative
remainder is resolved by appending exactly one change output of value
`-remainder` paying the funding address's own locking script
(`PayToAddrScript(addr)`). -/
theorem fund_value_balance_c1 (t : Tx) (env : FundEnv) (fee : Int) :
    (∀ t' sel evs, fund t env fee = (none, t', sel, evs) →
       sumAmounts sel - (sumOutputValues t'.msgTx.txOut + fee) = 0)
  ∧ (∀ v t' sel, ¬ sumOutputValues t.msgTx.txOut + fee > env.balance →
       fundLoop (sumOutputValues t.msgTx.txOut + fee) t env.utxos = (none, v, t', sel) →
       v > 0 →
       fund t env fee = (some FundError.mismatchedScriptPublicKeys, t', sel,
         [NetEvent.balanceQuery env.encodeAddress, NetEvent.listUnspent env.encodeAddress]))
  ∧ (∀ v t' sel script, ¬ sumOutputValues t.msgTx.txOut + fee > env.balance →
       fundLoop (sumOutputValues t.msgTx.txOut + fee) t env.utxos = (none, v, t', sel) →
       v < 0 → env.payToAddrScript = some script →
       fund t env fee = (none, { t' with msgTx := t'.msgTx.addTxOut ⟨-v, script⟩ }, sel,
         [NetEvent.balanceQuery env.encodeAddress, NetEvent.listUnspent env.encodeAddress])) := by
  refine ⟨?_, ?_, ?_⟩
  · intro t' sel evs h
    simp only [fund] at h
    split at h
    · simp at h
    · rcases hl : fundLoop (sumOutputValues t.msgTx.txOut + fee) t env.utxos
        with ⟨e0, v0, t0, sel0⟩
      obtain ⟨-, h2, -, h4, -⟩ := fundLoop_spec env.utxos _ _ _ _ _ _ hl
      rw [hl] at h
      cases e0 with
      | some e => simp at h
      | none =>
        simp only at h
        split at h
        · simp at h
        · rename_i hv0
          split at h
          · rename_i hneg
            split at h
            · simp at h
            · rename_i script hscript
              simp only [Prod.mk.injEq] at h
              obtain ⟨-, ht, hsel, -⟩ := h
              subst ht; subst hsel
              simp only [MsgTx.addTxOut, sumOutputValues_append, h2]
              simp only [sumOutputValues]
              omega
          · rename_i hneg
            simp only [Prod.mk.injEq] at h
            obtain ⟨-, ht, hsel, -⟩ := h
            subst ht; subst hsel
            rw [h2]
            omega
  · intro v t' sel hbal hl hv
    simp only [fund, hl]
    rw [if_neg hbal, if_pos hv]
  · intro v t' sel script hbal hl hv hscript
    simp only [fund, hl, hscript]
    rw [if_neg hbal, if_neg (by omega : ¬ v > 0), if_pos hv]

/-- C1 witness: the change scenario balances exactly — the selected
70000 input covers the 50000 output, the 10000 fee and the 10000 change
output. -/
theorem fund_value_balance_c1_witness :
    sumAmounts [c1U] - (sumOutputValues c1Funded.msgTx.txOut + 10000) = 0 :=
  (fund_value_balance_c1 c1T0 c1Env 10000).1 c1Funded [c1U]
    [NetEvent.balanceQuery "X", NetEvent.listUnspent "X"] (by decide)

/-- C3 counterexample: a successful funding pass in which the inputs do
NOT all reference outputs with the locking script of the first selected
output.  The first listed output has an empty locking script; since the
code cannot distinguish an empty script from the still-unset fingerprint
(`bytes.Compare(tx.scriptPublicKey, []byte{}) == 0`), the second,
different script is adopted rather than skipped, both outputs are
selected and both inputs added, and fund still succeeds. -/
theorem fund_homogeneity_c3_counterexample :
    (fund cx3T0 cx3Env 0).1 = none ∧
    (fund cx3T0 cx3Env 0).2.2.1 = [⟨h32, 0, [], 1⟩, ⟨h32, 1, [0xab], 5⟩] ∧
    ((fund cx3T0 cx3Env 0).2.1).msgTx.txIn = ((fund cx3T0 cx3Env 0).2.2.1).map mkTxIn ∧
    ¬ selHomogeneous (fund cx3T0 cx3Env 0).2.2.1 := by decide

/-- C3 (amended): provided every listed unspent output has nonempty
locking-script bytes, every funding pass that starts with an unset
fingerprint selects only outputs whose locking scripts are
byte-for-byte identical to the first selected output's, and the inputs
appended to the draft are exactly one per selected output; an output
with a different locking script is skipped and never added.  Holds on
every exit path of fund. -/
theorem fund_homogeneous_c3 (t : Tx) (env : FundEnv) (fee : Int) (res : Option FundError)
    (t' : Tx) (sel : List UnspentOutput) (evs : List NetEvent)
    (hfp : t.scriptPublicKey = []) (hne : ∀ u ∈ env.utxos, u.scriptPubKey ≠ [])
    (h : fund t env fee = (res, t', sel, evs)) :
    selHomogeneous sel ∧ t'.msgTx.txIn = t.msgTx.txIn ++ sel.map mkTxIn := by
  simp only [fund] at h
  split at h
  · simp only [Prod.mk.injEq] at h
    obtain ⟨-, ht, hsel, -⟩ := h
    subst ht; subst hsel
    exact ⟨by intro u hu; simp at hu, by simp⟩
  · rcases hl : fundLoop (sumOutputValues t.msgTx.txOut + fee) t env.utxos
      with ⟨e0, v0, t0, sel0⟩
    obtain ⟨-, -, h3, -, -⟩ := fundLoop_spec env.utxos _ _ _ _ _ _ hl
    have hhom := fundLoop_homogeneous env.utxos _ _ _ _ _ _ hfp hne hl
    rw [hl] at h
    cases e0 with
    | some e =>
      simp only [Prod.mk.injEq] at h
      obtain ⟨-, ht, hsel, -⟩ := h
      subst ht; subst hsel
      exact ⟨hhom, h3⟩
    | none =>
      simp only at h
      split at h
      · simp only [Prod.mk.injEq] at h
        obtain ⟨-, ht, hsel, -⟩ := h
        subst ht; subst hsel
        exact ⟨hhom, h3⟩
      · split at h
        · split at h
          · simp only [Prod.mk.injEq] at h
            obtain ⟨-, ht, hsel, -⟩ := h
            subst ht; subst hsel
            exact ⟨hhom, h3⟩
          · simp only [Prod.mk.injEq] at h
            obtain ⟨-, ht, hsel, -⟩ := h
            subst ht; subst hsel
            exact ⟨hhom, by simpa [MsgTx.addTxOut] using h3⟩
        · simp only [Prod.mk.injEq] at h
          obtain ⟨-, ht, hsel, -⟩ := h
          subst ht; subst hsel
          exact ⟨hhom, h3⟩

/-- C3 (amended) witness: in the off-by-one scenario all listed outputs
have the nonempty script 0xab; the single selected output matches the
first selected one, and exactly one input was appended for it. -/
theorem fund_homogeneous_c3_witness :
    selHomogeneous [(⟨h32, 0, [0xab], 6⟩ : UnspentOutput)] ∧
    ((⟨[6, 4], [0xab], ⟨2, [⟨⟨h32, 0⟩, []⟩], [⟨6, [0x51]⟩]⟩⟩ : Tx)).msgTx.txIn
      = cx4T0.msgTx.txIn ++ [(⟨h32, 0, [0xab], 6⟩ : UnspentOutput)].map mkTxIn :=
  fund_homogeneous_c3 cx4T0 cx4Env 0 none
    ⟨[6, 4], [0xab], ⟨2, [⟨⟨h32, 0⟩, []⟩], [⟨6, [0x51]⟩]⟩⟩
    [⟨h32, 0, [0xab], 6⟩]
    [NetEvent.balanceQuery "X", NetEvent.listUnspent "X"]
    (by decide) (by decide) (by decide)

/-- C4: the code violates the receiveValues/TxIn lockstep.  In the
off-by-one scenario fund succeeds, yet it has recorded two receive
values while appending only one input: the loop appends the amount of a
matching output to receiveValues before the remaining-value break check
fires (src/transaction.go lines 115-118), so a matching output left over
after the requirement is met is recorded without being spent. -/
theorem fund_lockstep_c4 :
    (fund cx4T0 cx4Env 0).1 = none ∧
    ((fund cx4T0 cx4Env 0).2.1).receiveValues = [6, 4] ∧
    ((fund cx4T0 cx4Env 0).2.1).msgTx.txIn.length = 1 := by decide

/-- C2: the fund-sign-verify pipeline is NOT always self-consistent.
In the off-by-one scenario fund succeeds and sign succeeds, but verify
iterates the recorded receive values — one more of them than there are
inputs — and building an engine for input index 1 of a 1-input draft
fails, even with a script interpreter that passes every in-range
execution. -/
theorem verify_pipeline_c2 :
    (fund cx4T0 cx4Env 0).1 = none ∧
    verify (fun _ _ _ _ => true)
        (sign (fund cx4T0 cx4Env 0).2.1 (fun _ _ _ _ => [1]) [2] none none)
      = some (VerifyError.engineIndexOutOfRange 1) := by decide

/-- C6: when a precondition is supplied and rejects the fresh unsigned
draft, SendTransaction returns the precondition-failed error, issues no
network call at all, and the resulting state is exactly the fresh state
as the caller's own predicate left it — no funding, signing,
verification or broadcast step ran, so the draft gained no inputs,
receive values, fingerprint or signatures from the pipeline. -/
theorem sendTransaction_precondition_c6 (env : SendEnv) (contract : Option Bytes) (fee : Int)
    (f : Option (List Bytes)) (p : MsgTx → Bool × MsgTx)
    (postCon : Option (MsgTx → Bool × MsgTx)) (m' : MsgTx)
    (hp : p (newMsgTx 2) = (false, m')) :
    sendTransaction env contract fee f (some p) postCon
      = (some SendError.preConditionFailed, ⟨[], [], m'⟩, []) := by
  simp only [sendTransaction, newTx, hp]

/-- C6 witness: a non-mutating always-false precondition on the trivial
environment. -/
theorem sendTransaction_precondition_c6_witness :
    sendTransaction envNull none 0 none (some fun m => (false, m)) none
      = (some SendError.preConditionFailed, ⟨[], [], newMsgTx 2⟩, []) :=
  sendTransaction_precondition_c6 envNull none 0 none (fun m => (false, m)) none
    (newMsgTx 2) rfl

/-! Properties of the signing loop. -/

/-- setSigScript preserves the number of inputs. -/
theorem setSigScript_length (m : MsgTx) (i : Nat) (s : List Bytes) :
    (setSigScript m i s).txIn.length = m.txIn.length := by
  unfold setSigScript
  split <;> simp

/-- The signing loop preserves the number of inputs. -/
theorem signGo_length (rawSig : MsgTx → Nat → Bytes → SigHashType → Bytes)
    (subScript pubKey : Bytes) (extra : Option (List Bytes)) (contract : Option Bytes) :
    ∀ (k i : Nat) (m : MsgTx),
      (signGo rawSig subScript pubKey extra contract i k m).txIn.length = m.txIn.length := by
  intro k
  induction k with
  | zero => intro i m; rfl
  | succ k ih =>
    intro i m
    rw [signGo]
    rw [ih]
    exact setSigScript_length m i _

/-- The signing loop leaves inputs below its current index untouched. -/
theorem signGo_get_lt (rawSig : MsgTx → Nat → Bytes → SigHashType → Bytes)
    (subScript pubKey : Bytes) (extra : Option (List Bytes)) (contract : Option Bytes) :
    ∀ (k i j : Nat) (m : MsgTx), j < i →
      (signGo rawSig subScript pubKey extra contract i k m).txIn[j]? = m.txIn[j]? := by
  intro k
  induction k with
  | zero => intro i j m hj; rfl
  | succ k ih =>
    intro i j m hj
    rw [signGo]
    rw [ih (i + 1) j _ (Nat.lt_succ_of_lt hj)]
    unfold setSigScript
    split
    · rfl
    · simp [List.getElem?_set_ne (Nat.ne_of_lt hj).symm]

/-- The signing loop splits: running `k1 + k2` steps from `i` is running
`k1` steps from `i` and then `k2` steps from `i + k1`. -/
theorem signGo_add (rawSig : MsgTx → Nat → Bytes → SigHashType → Bytes)
    (subScript pubKey : Bytes) (extra : Option (List Bytes)) (contract : Option Bytes) :
    ∀ (k1 k2 i : Nat) (m : MsgTx),
      signGo rawSig subScript pubKey extra contract i (k1 + k2) m
        = signGo rawSig subScript pubKey extra contract (i + k1) k2
            (signGo rawSig subScript pubKey extra contract i k1 m) := by
  intro k1
  induction k1 with
  | zero => intro k2 i m; simp [signGo]
  | succ k1 ih =>
    intro k2 i m
    have hsplit : k1 + 1 + k2 = (k1 + k2) + 1 := by omega
    rw [hsplit]
    rw [signGo]
    rw [signGo]
    rw [ih k2 (i + 1)]
    have hidx : i + 1 + k1 = i + (k1 + 1) := by omega
    rw [hidx]

/-- One step of the signing loop installs, at its index, the unlocking
script built from the signature over the draft as mutated so far. -/
theorem signGo_get_self (rawSig : MsgTx → Nat → Bytes → SigHashType → Bytes)
    (subScript pubKey : Bytes) (extra : Option (List Bytes)) (contract : Option Bytes)
    (k i : Nat) (m : MsgTx) (ti : TxIn) (hi : m.txIn[i]? = some ti) :
    (signGo rawSig subScript pubKey extra contract i (k + 1) m).txIn[i]?
      = some { ti with signatureScript :=
          buildSigScript (rawSig m i subScript SigHashType.sigHashAll) pubKey extra contract } := by
  rw [signGo]
  rw [signGo_get_lt rawSig subScript pubKey extra contract k (i + 1) i _ (Nat.lt_succ_self i)]
  unfold setSigScript
  rw [hi]
  have hlen : i < m.txIn.length := by
    by_contra hge
    rw [List.getElem?_eq_none (by omega)] at hi
    exact Option.noConfusion hi
  simp [List.getElem?_set_self, hlen]

/-- C5: for every input of the draft, sign computes the signature over
the contract's redeem script when a contract is supplied (else over the
recorded locking script), with SIGHASH_ALL, and installs as that input's
unlocking script: push(signature), push(serialized public key), then the
pushes made by the caller-supplied callback if present, and — only for
contract spends — a push of the redeem script as the final push.  The
draft the signature is computed over is the draft as mutated by the
signing of the earlier inputs (`signGo … 0 i` — the in-place loop). -/
theorem sign_script_c5 (t : Tx) (rawSig : MsgTx → Nat → Bytes → SigHashType → Bytes)
    (pubKey : Bytes) (extra : Option (List Bytes)) (contract : Option Bytes)
    (i : Nat) (hi : i < t.msgTx.txIn.length) :
    ((sign t rawSig pubKey extra contract).msgTx.txIn[i]?).map TxIn.signatureScript
      = some
          ([rawSig
              (signGo rawSig (match contract with | none => t.scriptPublicKey | some c => c)
                pubKey extra contract 0 i t.msgTx)
              i (match contract with | none => t.scriptPublicKey | some c => c)
              SigHashType.sigHashAll,
            pubKey]
            ++ (match extra with | none => [] | some ps => ps)
            ++ (match contract with | none => [] | some c => [c])) := by
  have hn : t.msgTx.txIn.length = i + ((t.msgTx.txIn.length - i - 1) + 1) := by omega
  simp only [sign]
  rw [hn, signGo_add]
  simp only [Nat.zero_add]
  have hlen : i <
      (signGo rawSig (match contract with | none => t.scriptPublicKey | some c => c)
        pubKey extra contract 0 i t.msgTx).txIn.length := by
    rw [signGo_length]
    exact hi
  obtain ⟨ti, hti⟩ : ∃ ti,
      (signGo rawSig (match contract with | none => t.scriptPublicKey | some c => c)
        pubKey extra contract 0 i t.msgTx).txIn[i]? = some ti :=
    ⟨_, List.getElem?_eq_getElem hlen⟩
  rw [signGo_get_self rawSig _ pubKey extra contract _ i _ ti hti]
  simp [buildSigScript]

/-- C5 witness: one input, constant signature oracle, a callback pushing
one datum, contract spend — the installed unlocking script is
[signature, public key, callback push, redeem script]. -/
theorem sign_script_c5_witness :
    (((sign ⟨[], [0xaa], ⟨2, [⟨⟨h32, 0⟩, []⟩], []⟩⟩ (fun _ _ _ _ => [7]) [2]
        (some [[0xdd]]) (some [0xcc])).msgTx.txIn[0]?).map TxIn.signatureScript)
      = some [[7], [2], [0xdd], [0xcc]] := by
  have h := sign_script_c5 ⟨[], [0xaa], ⟨2, [⟨⟨h32, 0⟩, []⟩], []⟩⟩ (fun _ _ _ _ => [7]) [2]
    (some [[0xdd]]) (some [0xcc]) 0 (by decide)
  simpa using h

/-! Properties of the broadcast-and-poll loop. -/

/-- When the postcondition first holds at the `k`-th attempt within the
budget, the poll loop stops there with `k` sleeps of 5 seconds before
it. -/
theorem pollLoop_first_success (post : Nat → Bool) :
    ∀ (k budget t : Nat), k < budget → (∀ j, j < k → post (t + j) = false) →
      post (t + k) = true →
      pollLoop post t budget = (true, t + k + 1, pollFailBlock k ++ [PollEv.pollSuccess]) := by
  intro k
  induction k with
  | zero =>
    intro budget t hk h0 hk'
    cases budget with
    | zero => omega
    | succ b =>
      rw [pollLoop]
      simp only [Nat.add_zero] at hk'
      rw [if_pos hk']
      simp [pollFailBlock]
  | succ k ih =>
    intro budget t hk h0 hk'
    cases budget with
    | zero => omega
    | succ b =>
      rw [pollLoop]
      have hfail : post t = false := by simpa using h0 0 (by omega)
      rw [if_neg (by simp [hfail])]
      rw [ih b (t + 1) (by omega)
        (fun j hj => by
          have h1 := h0 (j + 1) (by omega)
          have h2 : t + 1 + j = t + (j + 1) := by omega
          rw [h2]; exact h1)
        (by
          have h2 : t + 1 + k = t + (k + 1) := by omega
          rw [h2]; exact hk')]
      simp [pollFailBlock]
      omega

/-- When the postcondition fails throughout the budget, the poll loop
exhausts it, having slept 5 seconds after each failed attempt. -/
theorem pollLoop_exhausted (post : Nat → Bool) :
    ∀ (budget t : Nat), (∀ j, j < budget → post (t + j) = false) →
      pollLoop post t budget = (false, t + budget, pollFailBlock budget) := by
  intro budget
  induction budget with
  | zero => intro t h0; rfl
  | succ b ih =>
    intro t h0
    rw [pollLoop]
    have hfail : post t = false := by simpa using h0 0 (by omega)
    rw [if_neg (by simp [hfail])]
    rw [ih (t + 1)
      (fun j hj => by
        have h1 := h0 (j + 1) (by omega)
        have h2 : t + 1 + j = t + (j + 1) := by omega
        rw [h2]; exact h1)]
    simp [pollFailBlock]
    omega

/-- The poll loop never emits a broadcast event. -/
theorem pollLoop_no_broadcast (post : Nat → Bool) :
    ∀ (budget t : Nat) (b : Bytes),
      PollEv.broadcast b ∈ (pollLoop post t budget).2.2 → False := by
  intro budget
  induction budget with
  | zero => intro t b hmem; simp [pollLoop] at hmem
  | succ budget ih =>
    intro t b hmem
    rw [pollLoop] at hmem
    split at hmem
    · simp at hmem
    · rcases hrec : pollLoop post (t + 1) budget with ⟨ok, t', evs⟩
      rw [hrec] at hmem
      simp only [List.mem_cons] at hmem
      rcases hmem with h | h | h
      · exact PollEv.noConfusion h
      · exact PollEv.noConfusion h
      · exact ih (t + 1) b (by rw [hrec]; exact h)

/-- Every broadcast event the loop emits carries the same serialized
bytes. -/
theorem broadcastLoop_bytes (stx : Bytes) (done : Nat → Bool) (publish : Nat → Option String)
    (postCond : Option (Nat → Bool)) :
    ∀ (fuel r t : Nat) (res : SubmitOutcome) (evs : List PollEv) (b : Bytes),
      broadcastLoop stx done publish postCond fuel r t = some (res, evs) →
      PollEv.broadcast b ∈ evs → b = stx := by
  intro fuel
  induction fuel with
  | zero => intro r t res evs b h hmem; simp [broadcastLoop] at h
  | succ fuel ih =>
    intro r t res evs b h hmem
    simp only [broadcastLoop] at h
    split at h
    · simp only [Option.some.injEq, Prod.mk.injEq] at h
      obtain ⟨-, hevs⟩ := h
      subst hevs
      simp at hmem
    · split at h
      · simp only [Option.some.injEq, Prod.mk.injEq] at h
        obtain ⟨-, hevs⟩ := h
        subst hevs
        simp only [List.mem_singleton] at hmem
        exact (PollEv.broadcast.injEq b stx).mp hmem
      · split at h
        · simp only [Option.some.injEq, Prod.mk.injEq] at h
          obtain ⟨-, hevs⟩ := h
          subst hevs
          simp only [List.mem_singleton] at hmem
          exact (PollEv.broadcast.injEq b stx).mp hmem
        · rename_i post
          rcases hpoll : pollLoop post t 60 with ⟨ok, t', pevs⟩
          rw [hpoll] at h
          cases ok with
          | true =>
            simp only [Option.some.injEq, Prod.mk.injEq] at h
            obtain ⟨-, hevs⟩ := h
            subst hevs
            simp only [List.mem_cons] at hmem
            rcases hmem with hm | hm
            · exact (PollEv.broadcast.injEq b stx).mp hm
            · exact absurd (by rw [hpoll]; exact hm) (pollLoop_no_broadcast post 60 t b)
          | false =>
            simp only at h
            rcases hr : broadcastLoop stx done publish (some post) fuel (r + 1) t'
              with _ | ⟨oc, evs'⟩
            · rw [hr] at h; exact Option.noConfusion h
            · rw [hr] at h
              simp only [Option.some.injEq, Prod.mk.injEq] at h
              obtain ⟨-, hevs⟩ := h
              subst hevs
              simp only [List.mem_cons, List.mem_append] at hmem
              rcases hmem with hm | hm | hm
              · exact (PollEv.broadcast.injEq b stx).mp hm
              · exact absurd (by rw [hpoll]; exact hm) (pollLoop_no_broadcast post 60 t b)
              · exact ih (r + 1) t' oc evs' b hr hm

/-- C8: after a successful broadcast round (context not done, publish
accepted): with no postcondition, success is returned immediately after
the broadcast; with a postcondition, it is polled at the fixed 5-second
interval up to the 60-attempt budget and success is returned as soon as
it is satisfied; when the budget is exhausted the loop re-broadcasts and
polls again; once the cancellation signal has fired at the start of a
round the loop stops; and every broadcast of a run carries the same
serialized transaction bytes. -/
theorem broadcastLoop_c8 (stx : Bytes) (done : Nat → Bool) (publish : Nat → Option String)
    (post : Nat → Bool) (fuel r t : Nat) :
    (done r = false → publish r = none →
      broadcastLoop stx done publish none (fuel + 1) r t
        = some (SubmitOutcome.ok, [PollEv.broadcast stx]))
  ∧ (∀ k, done r = false → publish r = none → k < 60 →
      (∀ j, j < k → post (t + j) = false) → post (t + k) = true →
      broadcastLoop stx done publish (some post) (fuel + 1) r t
        = some (SubmitOutcome.ok,
            PollEv.broadcast stx :: (pollFailBlock k ++ [PollEv.pollSuccess])))
  ∧ (∀ oc evs', done r = false → publish r = none →
      (∀ j, j < 60 → post (t + j) = false) →
      broadcastLoop stx done publish (some post) fuel (r + 1) (t + 60) = some (oc, evs') →
      broadcastLoop stx done publish (some post) (fuel + 1) r t
        = some (oc, PollEv.broadcast stx :: (pollFailBlock 60 ++ evs')))
  ∧ (done r = true →
      broadcastLoop stx done publish (some post) (fuel + 1) r t
        = some (SubmitOutcome.postConditionFailed, []))
  ∧ (∀ res evs b, broadcastLoop stx done publish (some post) fuel r t = some (res, evs) →
      PollEv.broadcast b ∈ evs → b = stx) := by
  refine ⟨?_, ?_, ?_, ?_, ?_⟩
  · intro hdone hpub
    simp only [broadcastLoop, hpub]
    rw [if_neg (by simp [hdone])]
  · intro k hdone hpub hk h0 hk'
    simp only [broadcastLoop, hpub]
    rw [if_neg (by simp [hdone])]
    rw [pollLoop_first_success post k 60 t hk h0 hk']
  · intro oc evs' hdone hpub h0 hrec
    simp only [broadcastLoop, hpub]
    rw [if_neg (by simp [hdone])]
    rw [pollLoop_exhausted post 60 t h0]
    simp only
    rw [hrec]
  · intro hdone
    simp only [broadcastLoop]
    rw [if_pos hdone]
  · exact broadcastLoop_bytes stx done publish (some post) fuel r t

/-- C8 witness: context never done, publish always accepted, the
postcondition first satisfied at the third poll — the run broadcasts
once and returns success after two failed polls with 5-second sleeps. -/
theorem broadcastLoop_c8_witness :
    broadcastLoop [1] (fun _ => false) (fun _ => none) (some fun n => decide (n = 2)) 1 0 0
      = some (SubmitOutcome.ok,
          PollEv.broadcast [1] :: (pollFailBlock 2 ++ [PollEv.pollSuccess])) :=
  (broadcastLoop_c8 [1] (fun _ => false) (fun _ => none) (fun n => decide (n = 2)) 0 0 0).2.1
    2 rfl rfl (by omega)
    (fun j hj => by
      rcases j with _ | _ | j
      · rfl
      · rfl
      · omega)
    (by simp)

/-- The sleep durations of any backoff run form the 1.6-fold growth
sequence from the duration the run started with. -/
theorem backoff_sleeps (done : Nat → Bool) (f : Nat → Option String) :
    ∀ (fuel n d : Nat) (res : BackoffOutcome) (evs : List BackoffEv),
      backoff done f fuel n d = some (res, evs) →
      sleepsOf evs = durSeq d (sleepsOf evs).length := by
  intro fuel
  induction fuel with
  | zero => intro n d res evs h; simp [backoff] at h
  | succ fuel ih =>
    intro n d res evs h
    simp only [backoff] at h
    split at h
    · simp only [Option.some.injEq, Prod.mk.injEq] at h
      obtain ⟨-, hevs⟩ := h
      subst hevs
      rfl
    · split at h
      · simp only [Option.some.injEq, Prod.mk.injEq] at h
        obtain ⟨-, hevs⟩ := h
        subst hevs
        rfl
      · rcases hr : backoff done f fuel (n + 1) (d * 8 / 5) with _ | ⟨oc, evs0⟩
        · rw [hr] at h
          exact Option.noConfusion h
        · rw [hr] at h
          simp only [Option.some.injEq, Prod.mk.injEq] at h
          obtain ⟨-, hevs⟩ := h
          subst hevs
          have htail := ih (n + 1) (d * 8 / 5) oc evs0 hr
          have hstep : sleepsOf (BackoffEv.ctxCheck :: BackoffEv.call ::
              BackoffEv.sleepMilliseconds d :: evs0) = d :: sleepsOf evs0 := rfl
          rw [hstep]
          simp only [List.length_cons, durSeq]
          exact congrArg (List.cons d) htail

/-- C9: the backoff wrapper checks the cancellation signal before each
attempt and returns the timed-out error once it has fired (no call is in
flight at that point); a successful inner call's result is returned
without further retries; any error leads to a sleep of the current
duration and a retry with the duration grown by the factor 1.6; and over
a whole run started at the initial interval 1000 the successive sleep
durations are exactly the 1.6-fold growth sequence, with no upper
cap. -/
theorem backoff_c9 (done : Nat → Bool) (f : Nat → Option String) (fuel n d : Nat) :
    (done n = true →
      backoff done f (fuel + 1) n d
        = some (BackoffOutcome.timedOut, [BackoffEv.ctxCheck]))
  ∧ (done n = false → f n = none →
      backoff done f (fuel + 1) n d
        = some (BackoffOutcome.ok, [BackoffEv.ctxCheck, BackoffEv.call]))
  ∧ (∀ e res evs, done n = false → f n = some e →
      backoff done f fuel (n + 1) (d * 8 / 5) = some (res, evs) →
      backoff done f (fuel + 1) n d
        = some (res,
            BackoffEv.ctxCheck :: BackoffEv.call :: BackoffEv.sleepMilliseconds d :: evs))
  ∧ (∀ res evs, backoffRun done f fuel = some (res, evs) →
      sleepsOf evs = durSeq 1000 (sleepsOf evs).length) := by
  refine ⟨?_, ?_, ?_, ?_⟩
  · intro hdone
    simp only [backoff]
    rw [if_pos hdone]
  · intro hdone hf
    simp only [backoff, hf]
    rw [if_neg (by simp [hdone])]
  · intro e res evs hdone hf hrec
    simp only [backoff, hf]
    rw [if_neg (by simp [hdone])]
    rw [hrec]
  · intro res evs h
    exact backoff_sleeps done f fuel 0 1000 res evs h

/-- C9 witness: with the signal firing from attempt 2 on and an inner
call that always fails, the wrapper times out at the check before
attempt 2, and a full 3-fuel run from the initial interval sleeps 1000
then 1600 milliseconds. -/
theorem backoff_c9_witness :
    backoff (fun n => decide (2 ≤ n)) (fun _ => some "e") 1 2 2560
      = some (BackoffOutcome.timedOut, [BackoffEv.ctxCheck]) ∧
    sleepsOf [BackoffEv.ctxCheck, BackoffEv.call, BackoffEv.sleepMilliseconds 1000,
        BackoffEv.ctxCheck, BackoffEv.call, BackoffEv.sleepMilliseconds 1600,
        BackoffEv.ctxCheck]
      = durSeq 1000 (sleepsOf [BackoffEv.ctxCheck, BackoffEv.call,
          BackoffEv.sleepMilliseconds 1000, BackoffEv.ctxCheck, BackoffEv.call,
          BackoffEv.sleepMilliseconds 1600, BackoffEv.ctxCheck]).length :=
  ⟨(backoff_c9 (fun n => decide (2 ≤ n)) (fun _ => some "e") 0 2 2560).1 (by decide),
   (backoff_c9 (fun n => decide (2 ≤ n)) (fun _ => some "e") 3 0 1000).2.2.2
     BackoffOutcome.timedOut
     [BackoffEv.ctxCheck, BackoffEv.call, BackoffEv.sleepMilliseconds 1000,
       BackoffEv.ctxCheck, BackoffEv.call, BackoffEv.sleepMilliseconds 1600,
       BackoffEv.ctxCheck] (by decide)⟩

end LibBtc
